import Mathlib

/-!
Verification of the cozy-stack permission and delegation engine against its
specification.

The repository sources available here are `src/web/apps/apps.go` (which also
carries `pkg/instance/instance.go`, the home of `Instance.PickKey` and
`Instance.MakeJWT`) and the test file of the `web/permissions` package.  The
engine itself (`pkg/permissions`, `web/permissions` handlers) is not among the
sources, only its tests are; the definitions below that embed it are therefore
modelled from the specification text, and each such definition says so in its
doc comment.  `PickKey` and `MakeJWT` are embedded directly from the Go source.
-/

set_option autoImplicit false

namespace Cozy

/-- Verb is one of the five HTTP verbs a rule may grant.  Modelled from the
spec: `verbs`: a non-empty set drawn from \x7bGET, POST, PUT, PATCH, DELETE\x7d. -/
inductive Verb where
  | GET
  | POST
  | PUT
  | PATCH
  | DELETE
deriving DecidableEq, Repr, Fintype

/-- VerbSet is a set of verbs, represented by one membership flag per verb.
Modelled from the spec: a rule's verb set, with the wildcard ALL meaning every
verb represented as the full set. -/
structure VerbSet where
  hasGET : Bool
  hasPOST : Bool
  hasPUT : Bool
  hasPATCH : Bool
  hasDELETE : Bool
deriving DecidableEq, Repr

/-- VerbSet.has tests membership of a verb in a verb set. -/
def VerbSet.has (vs : VerbSet) : Verb → Bool
  | .GET => vs.hasGET
  | .POST => vs.hasPOST
  | .PUT => vs.hasPUT
  | .PATCH => vs.hasPATCH
  | .DELETE => vs.hasDELETE

/-- Verbs builds a verb set from a construction list, keeping only membership.
Modelled from the spec: the `Verbs(...)` constructor used by the tests. -/
def Verbs (l : List Verb) : VerbSet :=
  ⟨l.contains .GET, l.contains .POST, l.contains .PUT,
   l.contains .PATCH, l.contains .DELETE⟩

/-- ALL is the wildcard verb set meaning every verb.  Modelled from the spec:
"the special wildcard ALL meaning every verb". -/
def ALL : VerbSet := ⟨true, true, true, true, true⟩

/-- Verb.name is the canonical textual name of a verb. -/
def Verb.name : Verb → String
  | .GET => "GET"
  | .POST => "POST"
  | .PUT => "PUT"
  | .PATCH => "PATCH"
  | .DELETE => "DELETE"

/-- verbOrder is the fixed rendering order GET, POST, PUT, PATCH, DELETE.
Modelled from the spec: "Canonical textual rendering lists verbs in the fixed
order GET, POST, PUT, PATCH, DELETE regardless of construction order." -/
def verbOrder : List Verb := [.GET, .POST, .PUT, .PATCH, .DELETE]

/-- VerbSet.string renders a verb set: the member verbs, in the fixed canonical
order, joined by commas.  Modelled from the spec (same sentence as
`verbOrder`). -/
def VerbSet.string (vs : VerbSet) : String :=
  String.intercalate "," ((verbOrder.filter vs.has).map Verb.name)

/-- Rule is an atomic grant.  Modelled from the spec: document type, verb set,
optional value list, optional selector. -/
structure Rule where
  type : String
  verbs : VerbSet
  values : List String
  selector : Option String
deriving DecidableEq, Repr

/-- RuleSet is a mapping from a name to a rule, kept as an association list.
Modelled from the spec: "Mapping from a caller-chosen or auto-generated name to
a Rule; names are unique within a set, order is irrelevant to semantics." -/
abbrev RuleSet : Type := List (String × Rule)

/-- ruleAllows tells whether one rule authorizes (verb, type, value?): the type
matches, the verb set contains the verb, and either the rule is unrestricted or
the given value is among its values.  Modelled from the spec §4.1 `Allow`. -/
def ruleAllows (r : Rule) (v : Verb) (ty : String) (val : Option String) : Bool :=
  r.type == ty && r.verbs.has v &&
    (match val with
     | none => r.values.isEmpty
     | some x => r.values.isEmpty || r.values.contains x)

/-- allow tells whether some rule of the set authorizes the request.  Modelled
from the spec §4.1: "true iff some rule in the set has matching type, its verb
set contains verb or ALL, and (values is empty OR value is present in
values)". -/
def allow (s : RuleSet) (v : Verb) (ty : String) (val : Option String) : Bool :=
  s.any fun p => ruleAllows p.2 v ty val

/-- verbSubset tests verb-set inclusion: every verb of the child set is in the
parent set.  Modelled from the spec §4.1: "a verb set that is a subset of the
parent rule's verb set (or parent has ALL)"; ALL is the full set here, so the
parenthetical case is subsumed. -/
def verbSubset (c p : VerbSet) : Bool :=
  verbOrder.all fun v => !c.has v || p.has v

/-- ruleCoveredBy tests whether a parent rule covers a child rule: same type,
verb subset, and either the parent is unrestricted, or the child is itself
value-restricted with every value among the parent's.  A child with empty
values under a value-restricted parent is never covered: by the spec §3
invariant an empty-values rule is strictly broader than any value-restricted
rule of the same type.  Modelled from the spec §4.1 `IsSubsetOf`'s per-rule
condition together with that invariant and the §8 property that a subset's
grants transfer to the parent. -/
def ruleCoveredBy (c p : Rule) : Bool :=
  c.type == p.type && verbSubset c.verbs p.verbs &&
    (p.values.isEmpty ||
      (!c.values.isEmpty && c.values.all fun v => p.values.contains v))

/-- isSubsetOf tests whether every rule of the child set is covered by some
rule of the parent set.  Modelled from the spec §4.1: "every rule in child must
be covered by some rule in parent ...; a child requesting a type absent from
parent is never a subset". -/
def isSubsetOf (child parent : RuleSet) : Bool :=
  child.all fun c => parent.any fun p => ruleCoveredBy c.2 p.2

/-- setRule inserts a named rule in a set, overwriting a same-named rule if one
exists.  Modelled from the spec: `Merge` is "union by name, later entries
overwrite same-named rules". -/
def setRule (s : RuleSet) (n : String) (r : Rule) : RuleSet :=
  if s.any fun p => p.1 == n then
    s.map fun p => if p.1 == n then (n, r) else p
  else
    s ++ [(n, r)]

/-- mergeSet merges the additions into the base set, union by rule name, later
entries overwriting same-named rules.  Modelled from the spec §4.1 `Merge`. -/
def mergeSet (base adds : RuleSet) : RuleSet :=
  adds.foldl (fun acc p => setRule acc p.1 p.2) base

/-- splitChar splits a character list on a separator character; like Go's
`strings.Split`, adjacent separators produce empty pieces. -/
def splitChar (c : Char) : List Char → List (List Char)
  | [] => [[]]
  | x :: xs =>
      let r := splitChar c xs
      if x = c then
        [] :: r
      else
        match r with
        | [] => [[x]]
        | y :: ys => (x :: y) :: ys

/-- splitString splits a string on a separator character, producing the pieces
between occurrences. -/
def splitString (c : Char) (s : String) : List String :=
  (splitChar c s.data).map String.mk

/-- parseVerb reads one textual verb name. -/
def parseVerb : String → Option Verb
  | "GET" => some .GET
  | "POST" => some .POST
  | "PUT" => some .PUT
  | "PATCH" => some .PATCH
  | "DELETE" => some .DELETE
  | _ => none

/-- parseScopeRule reads one space-separated scope part: either `type`, which
grants every verb, or `type:VERB`, which grants that single verb.  Modelled
from the spec: the two observed inline-scope forms (§9, open question on the
richer grammar). -/
def parseScopeRule (s : String) : Option Rule :=
  match splitString (Char.ofNat 58) s with
  | [ty] => some ⟨ty, ALL, [], none⟩
  | [ty, v] => (parseVerb v).map fun vb => ⟨ty, Verbs [vb], [], none⟩
  | _ => none

/-- parseScope parses a space-separated inline scope string into a rule set,
naming the rules `rule0`, `rule1`, ... in parse order.  Modelled from the spec:
"Auto-generated names (used when parsing an inline scope string) follow the
pattern rule0, rule1, ... in parse order." -/
def parseScope (s : String) : Option RuleSet :=
  let parts := (splitString (Char.ofNat 32) s).filter fun p => p ≠ ""
  (parts.mapM parseScopeRule).map fun rules =>
    rules.enum.map fun p => ("rule" ++ toString p.1, p.2)

/-- Err enumerates the failure cases of the engine.  Modelled from the spec §7
error taxonomy: invariant violations (depth exceeded, subset violated, no-op
patch, ownership mismatch), invalid credential, expired credential, and the
unknown-audience error of `PickKey`. -/
inductive Err where
  | invalidParent
  | notSubset
  | notOwner
  | noopPatch
  | invalidToken
  | expiredToken
  | invalidAudience
deriving DecidableEq, Repr

/-- PermDoc is a persisted Permission Document.  Modelled from the spec §3:
id, rule set, named share codes, owning client id, delegation depth marker
(`parentDepth`). -/
structure PermDoc where
  id : String
  ruleSet : RuleSet
  codes : List (String × String)
  clientID : String
  parentDepth : Nat
deriving DecidableEq, Repr

/-- genCodes produces the fresh name-to-code mapping for a request: each name
present in the request is paired with a freshly generated code, and the
caller-supplied value for that name is discarded.  The generator `gen` stands
for the cryptographically random code source, indexed by position.  Modelled
from the spec §4.3: "generate a fresh opaque code for every name present in
the request ... servers never accept a caller-chosen code value". -/
def genCodes (req : List (String × String)) (gen : Nat → String) :
    List (String × String) :=
  req.enum.map fun p => (p.2.1, gen p.1)

/-- createSubPermission is the Delegation Manager's `Create`.  Modelled from
the spec §4.3: reject unless the owner's depth is 0; reject unless the
requested set is a subset of the owner's set; otherwise persist a document at
depth `depth + 1` with the requested rules and a fresh code per recipient
name. -/
def createSubPermission (ownerSet : RuleSet) (ownerClientID : String)
    (depth : Nat) (requested : RuleSet) (names : List String)
    (newID : String) (gen : Nat → String) : Except Err PermDoc :=
  if depth ≠ 0 then
    .error .invalidParent
  else if !isSubsetOf requested ownerSet then
    .error .notSubset
  else
    .ok ⟨newID, requested, (names.enum.map fun p => (p.2, gen p.1)),
         ownerClientID, depth + 1⟩

/-- applyCodeNames replaces a document's codes wholesale when a codes mapping
is supplied, and leaves the document unchanged otherwise.  Modelled from the
spec §4.3 step 4. -/
def applyCodeNames (doc : PermDoc) (codeNames : Option (List (String × String)))
    (gen : Nat → String) : PermDoc :=
  match codeNames with
  | none => doc
  | some req => { doc with codes := genCodes req gen }

/-- patchPermission is the Delegation Manager's `Patch`.  Modelled from the
spec §4.3: reject unless the acting client is the document's owner; reject a
no-op patch; if rule additions are given, reject unless they are a subset of
the acting owner's rule set at call time, otherwise merge them by name; if a
codes mapping is given, replace the codes wholesale with fresh codes. -/
def patchPermission (doc : PermDoc) (acting : String) (ownerSet : RuleSet)
    (ruleAdditions : Option RuleSet) (codeNames : Option (List (String × String)))
    (gen : Nat → String) : Except Err PermDoc :=
  if acting ≠ doc.clientID then
    .error .notOwner
  else if ruleAdditions = none ∧ codeNames = none then
    .error .noopPatch
  else
    match ruleAdditions with
    | some adds =>
        if isSubsetOf adds ownerSet then
          .ok (applyCodeNames { doc with ruleSet := mergeSet doc.ruleSet adds }
                codeNames gen)
        else
          .error .notSubset
    | none => .ok (applyCodeNames doc codeNames gen)

/-- revokePermission is the Delegation Manager's `Revoke`: reject unless the
acting client is the document's owner, otherwise the document is deleted.
Modelled from the spec §4.3: "reject unless actingOwnerClientID ==
document.clientID; otherwise delete the document". -/
def revokePermission (doc : PermDoc) (acting : String) : Except Err Unit :=
  if acting = doc.clientID then .ok () else .error .notOwner

/-- Credential distinguishes the creating OAuth client's own token from a
bearer code derived from a stored document.  Modelled from the spec §3:
`subject` is "either an OAuth client identifier, a Permission Document
identifier/code, or an application slug"; the acting owner identity presented
to Patch/Revoke is that subject string. -/
inductive Credential where
  | clientToken (clientID : String)
  | shareCode (code : String)
deriving DecidableEq, Repr

/-- credentialOwner is the acting owner identity a credential resolves to: the
client id for a client token, the code string itself for a derived share
code.  Modelled from the spec §4.2: for inline-scope audiences "ownerClientID =
token.subject"; a share code's subject is the code, never a client id. -/
def credentialOwner : Credential → String
  | .clientToken c => c
  | .shareCode code => code

/-- AppAudience is the audience of application tokens.  Modelled from the
spec: the audience constants live in `pkg/permissions`, which is not among the
sources; their concrete values are opaque, only their distinctness matters. -/
def AppAudience : String := "app"

/-- RefreshTokenAudience is the audience of OAuth refresh tokens.  Modelled
from the spec, as for `AppAudience`. -/
def RefreshTokenAudience : String := "refresh"

/-- AccessTokenAudience is the audience of OAuth access tokens.  Modelled from
the spec, as for `AppAudience`. -/
def AccessTokenAudience : String := "access"

/-- ShareAudience is the audience of share codes.  Modelled from the spec, as
for `AppAudience`. -/
def ShareAudience : String := "share"

/-- CLIAudience is the audience of CLI tokens.  Modelled from the spec, as for
`AppAudience`. -/
def CLIAudience : String := "cli"

/-- Claims is the decoded content of a bearer credential, after the external
crypto collaborator verified the signature.  Embedded from the source's
`permissions.Claims` (jwt standard claims plus a scope), whose construction is
visible in `pkg/instance` `MakeJWT` and in the tests. -/
structure Claims where
  audience : String
  issuer : String
  subject : String
  issuedAt : Int
  scope : String
deriving DecidableEq, Repr

/-- resolveToken is the Authorization Evaluator's `Resolve`: inline-scope
audiences (App, OAuth-Access, CLI) parse the token's scope, the Share audience
loads a stored document by subject (document id or code), OAuth-Access tokens
additionally require the subject to be a registered client and the issue time
to be within the validity window.  Modelled from the spec §4.2; the spec
leaves the order of the client lookup and the staleness check unstated, and
this model performs the lookup first, matching the order of the `GetSelf`
error contract in §6.  A refresh token resolves to no rule set (the spec gives
it no resolution path), modelled as an invalid credential. -/
def resolveToken (validity : Int) (registry : List String)
    (store : List PermDoc) (now : Int) (c : Claims) :
    Except Err (RuleSet × String) :=
  if c.audience = AppAudience ∨ c.audience = CLIAudience then
    match parseScope c.scope with
    | none => .error .invalidToken
    | some rs => .ok (rs, c.subject)
  else if c.audience = AccessTokenAudience then
    if registry.contains c.subject then
      if now - c.issuedAt > validity then
        .error .expiredToken
      else
        match parseScope c.scope with
        | none => .error .invalidToken
        | some rs => .ok (rs, c.subject)
    else
      .error .invalidToken
  else if c.audience = ShareAudience then
    match store.find? (fun d =>
        d.id == c.subject || d.codes.any fun p => p.2 == c.subject) with
    | none => .error .invalidToken
    | some d => .ok (d.ruleSet, c.subject)
  else
    .error .invalidToken

/-- HTTPResp is the outcome of an exposed operation: a success carrying the
caller's rule set, or an error with a status code and a body. -/
inductive HTTPResp where
  | ok (rules : RuleSet)
  | err (status : Nat) (body : String)
deriving DecidableEq, Repr

/-- invalidJWTBody is the generic invalid-token response body, as asserted
verbatim by the tests. -/
def invalidJWTBody : String := "\x7b\"message\":\"Invalid JWT token\"\x7d"

/-- expiredTokenBody is the expired-token response body, as asserted verbatim
by the tests. -/
def expiredTokenBody : String := "\x7b\"message\":\"Expired token\"\x7d"

/-- getSelf is the `GET /permissions/self` contract: 200 with the caller's own
rule set, 400 with the generic invalid-token body when the credential is
malformed or its subject cannot be resolved, 400 with the distinct expired
body when the OAuth-Access staleness check fails.  The `Option Claims`
argument is the outcome of the external credential verifier, `none` meaning a
malformed or unverifiable bearer string.  Modelled from the spec §6 `GetSelf`
and §7. -/
def getSelf (validity : Int) (registry : List String) (store : List PermDoc)
    (now : Int) : Option Claims → HTTPResp
  | none => .err 400 invalidJWTBody
  | some c =>
      match resolveToken validity registry store now c with
      | .error .expiredToken => .err 400 expiredTokenBody
      | .error _ => .err 400 invalidJWTBody
      | .ok (rs, _) => .ok rs

/-- vsEmpty is the empty verb set. -/
def vsEmpty : VerbSet := ⟨false, false, false, false, false⟩

/-- vsUnion is the union of two verb sets. -/
def vsUnion (a b : VerbSet) : VerbSet :=
  ⟨a.hasGET || b.hasGET, a.hasPOST || b.hasPOST, a.hasPUT || b.hasPUT,
   a.hasPATCH || b.hasPATCH, a.hasDELETE || b.hasDELETE⟩

/-- ruleMatchesRef tells whether a rule covers a (type, id) reference: the
type matches and, if the rule is value-restricted, the id is among its
values.  Modelled from the spec §4.4. -/
def ruleMatchesRef (r : Rule) (ty idv : String) : Bool :=
  r.type == ty && (r.values.isEmpty || r.values.contains idv)

/-- matchingRules collects, across all stored Permission Documents, every rule
covering a (type, id) reference.  Modelled from the spec §4.4: "scan all
Permission Documents persisted for the instance; for every rule whose type
matches and whose values (if restricted) contains id ...". -/
def matchingRules (store : List PermDoc) (ty idv : String) : List Rule :=
  ((store.flatMap fun d => d.ruleSet.map Prod.snd).filter
    fun r => ruleMatchesRef r ty idv)

/-- refVerbs is the union of the verbs of every rule covering the reference,
across all stored documents.  Modelled from the spec §4.4: "union that rule's
verbs into the result for that reference". -/
def refVerbs (store : List PermDoc) (ty idv : String) : VerbSet :=
  (matchingRules store ty idv).foldl (fun a r => vsUnion a r.verbs) vsEmpty

/-- checkExistence is the Existence/Verb Resolver: each input reference
covered by at least one stored rule appears in the output with the union of
the matching rules' verbs; uncovered references are omitted entirely.
Modelled from the spec §4.4. -/
def checkExistence (store : List PermDoc) (refs : List (String × String)) :
    List (String × String × VerbSet) :=
  refs.filterMap fun r =>
    if (matchingRules store r.1 r.2).isEmpty then none
    else some (r.1, r.2, refVerbs store r.1 r.2)

/-- Instance carries the per-instance secrets used to sign and verify tokens.
Embedded from `pkg/instance/instance.go` (the fields `PickKey` reads). -/
structure Instance where
  domain : String
  sessionSecret : List Nat
  oauthSecret : List Nat
  cliSecret : List Nat
deriving DecidableEq, Repr

/-- PickKey chooses which of the instance keys to use depending on the token
audience.  Embedded from `pkg/instance/instance.go` `(*Instance).PickKey`:
App selects the session secret; OAuth-Refresh, OAuth-Access and Share select
the OAuth secret; CLI selects the CLI secret; everything else is
`ErrInvalidAudience`. -/
def Instance.PickKey (i : Instance) (audience : String) :
    Except Err (List Nat) :=
  if audience = AppAudience then
    .ok i.sessionSecret
  else if audience = RefreshTokenAudience ∨ audience = AccessTokenAudience
      ∨ audience = ShareAudience then
    .ok i.oauthSecret
  else if audience = CLIAudience then
    .ok i.cliSecret
  else
    .error .invalidAudience

/-- MakeJWT builds a signed token: it picks the secret for the audience,
failing when `PickKey` fails, and signs the standard claims plus scope with
it.  Embedded from `pkg/instance/instance.go` `(*Instance).MakeJWT`; the
external signer `crypto.NewJWT` is abstracted as the function argument
`njwt`. -/
def Instance.MakeJWT (i : Instance) (njwt : List Nat → Claims → String)
    (audience subject scope : String) (issuedAt : Int) : Except Err String :=
  match i.PickKey audience with
  | .error e => .error e
  | .ok secret => .ok (njwt secret ⟨audience, i.domain, subject, issuedAt, scope⟩)

end Cozy

namespace Cozy

theorem vsUnion_has (a b : VerbSet) (v : Verb) :
    (vsUnion a b).has v = (a.has v || b.has v) := by
  cases v <;> rfl

theorem vsEmpty_has (v : Verb) : vsEmpty.has v = false := by
  cases v <;> rfl

theorem verbset_ext (a b : VerbSet) (h : ∀ v, a.has v = b.has v) : a = b := by
  cases a
  cases b
  have h1 := h .GET
  have h2 := h .POST
  have h3 := h .PUT
  have h4 := h .PATCH
  have h5 := h .DELETE
  simp only [VerbSet.has] at h1 h2 h3 h4 h5
  subst h1 h2 h3 h4 h5
  rfl

theorem verbs_ext (l1 l2 : List Verb) (h : ∀ v, v ∈ l1 ↔ v ∈ l2) :
    Verbs l1 = Verbs l2 := by
  have hc : ∀ v : Verb, l1.contains v = l2.contains v := by
    intro v
    simp [h v]
  simp only [Verbs, hc]

/-- C10: verb-set rendering is order-independent and canonical: sets built
from construction lists with the same members render identically, and both
`Verbs(DELETE, PATCH)` and `Verbs(PATCH, DELETE)` render as "PATCH,DELETE",
following the fixed GET, POST, PUT, PATCH, DELETE order. -/
theorem verbset_string_order_independent :
    (∀ l1 l2 : List Verb, (∀ v, v ∈ l1 ↔ v ∈ l2) →
        (Verbs l1).string = (Verbs l2).string)
    ∧ (Verbs [.DELETE, .PATCH]).string = "PATCH,DELETE"
    ∧ (Verbs [.PATCH, .DELETE]).string = "PATCH,DELETE" := by
  refine ⟨fun l1 l2 h => ?_, by decide, by decide⟩
  rw [verbs_ext l1 l2 h]

theorem verbset_string_order_independent_witness :
    (∀ v : Verb, v ∈ [Verb.DELETE, Verb.PATCH] ↔ v ∈ [Verb.PATCH, Verb.DELETE])
    ∧ (Verbs [.DELETE, .PATCH]).string = (Verbs [.PATCH, .DELETE]).string := by
  refine ⟨by decide, ?_⟩
  exact verbset_string_order_independent.1 _ _ (by decide)

/-- C7: parsing the inline scope string "io.cozy.contacts io.cozy.files:GET"
yields exactly two rules named rule0 and rule1 in parse order, rule0 granting
io.cozy.contacts with unrestricted verbs (the full verb set) and rule1
granting io.cozy.files with verb set exactly GET. -/
theorem parse_scope_two_rules :
    parseScope "io.cozy.contacts io.cozy.files:GET" =
      some [("rule0", ⟨"io.cozy.contacts", ALL, [], none⟩),
            ("rule1", ⟨"io.cozy.files", Verbs [.GET], [], none⟩)]
    ∧ (∀ v, ALL.has v = true)
    ∧ (∀ v, (Verbs [Verb.GET]).has v = true ↔ v = Verb.GET) := by
  refine ⟨by decide, by decide, by decide⟩

/-- C3: creating a sub-permission from a credential whose backing document has
delegation depth 1 always fails with the depth error, regardless of the
requested rule set, the recipient names, or anything else. -/
theorem create_sub_sub_always_fails :
    ∀ (ownerSet : RuleSet) (ownerClientID : String) (requested : RuleSet)
      (names : List String) (newID : String) (gen : Nat → String),
      createSubPermission ownerSet ownerClientID 1 requested names newID gen =
        .error .invalidParent := by
  intro ownerSet ownerClientID requested names newID gen
  simp [createSubPermission]

/-- C9: PickKey selects the secret deterministically by audience: App yields
the session secret; OAuth-Refresh, OAuth-Access and Share yield the OAuth
secret; CLI yields the CLI secret; every other audience string yields the
invalid-audience error, and MakeJWT then fails the same way. -/
theorem pickkey_by_audience :
    ∀ (i : Instance) (audience : String),
      (audience = AppAudience → i.PickKey audience = .ok i.sessionSecret)
      ∧ (audience = RefreshTokenAudience ∨ audience = AccessTokenAudience
          ∨ audience = ShareAudience →
          i.PickKey audience = .ok i.oauthSecret)
      ∧ (audience = CLIAudience → i.PickKey audience = .ok i.cliSecret)
      ∧ (audience ≠ AppAudience → audience ≠ RefreshTokenAudience →
         audience ≠ AccessTokenAudience → audience ≠ ShareAudience →
         audience ≠ CLIAudience →
          i.PickKey audience = .error .invalidAudience
          ∧ ∀ (njwt : List Nat → Claims → String) (subject scope : String)
              (issuedAt : Int),
              i.MakeJWT njwt audience subject scope issuedAt =
                .error .invalidAudience) := by
  intro i audience
  refine ⟨fun h => ?_, fun h => ?_, fun h => ?_, fun h1 h2 h3 h4 h5 => ?_⟩
  · simp [Instance.PickKey, h]
  · rcases h with h | h | h <;> subst h <;>
      simp [Instance.PickKey, AppAudience, RefreshTokenAudience,
        AccessTokenAudience, ShareAudience]
  · subst h
    simp [Instance.PickKey, AppAudience, RefreshTokenAudience,
      AccessTokenAudience, ShareAudience, CLIAudience]
  · have hp : i.PickKey audience = .error .invalidAudience := by
      simp [Instance.PickKey, h1, h2, h3, h4, h5]
    exact ⟨hp, fun njwt subject scope issuedAt => by
      simp [Instance.MakeJWT, hp]⟩

theorem pickkey_by_audience_witness :
    ((⟨"example.com", [0], [1], [2]⟩ : Instance).PickKey "app" = .ok [0])
    ∧ ((⟨"example.com", [0], [1], [2]⟩ : Instance).PickKey "access" = .ok [1])
    ∧ ((⟨"example.com", [0], [1], [2]⟩ : Instance).PickKey "cli" = .ok [2])
    ∧ ((⟨"example.com", [0], [1], [2]⟩ : Instance).PickKey "sessions" =
        .error .invalidAudience) := by
  refine ⟨?_, ?_, ?_, ?_⟩
  · exact (pickkey_by_audience ⟨"example.com", [0], [1], [2]⟩ "app").1 rfl
  · exact (pickkey_by_audience ⟨"example.com", [0], [1], [2]⟩ "access").2.1
      (Or.inr (Or.inl rfl))
  · exact (pickkey_by_audience ⟨"example.com", [0], [1], [2]⟩ "cli").2.2.1 rfl
  · exact ((pickkey_by_audience ⟨"example.com", [0], [1], [2]⟩ "sessions").2.2.2
      (by decide) (by decide) (by decide) (by decide) (by decide)).1

theorem type_absent_not_subset (adds ownerSet : RuleSet) (p : String × Rule)
    (hp : p ∈ adds) (habs : ∀ q ∈ ownerSet, (q.2).type ≠ (p.2).type) :
    isSubsetOf adds ownerSet = false := by
  by_contra h
  rw [Bool.not_eq_false] at h
  rw [isSubsetOf, List.all_eq_true] at h
  have := h p hp
  rw [List.any_eq_true] at this
  obtain ⟨q, hq, hcov⟩ := this
  rw [ruleCoveredBy] at hcov
  simp only [Bool.and_eq_true, beq_iff_eq] at hcov
  exact habs q hq hcov.1.1.symm

/-- C1: a patch by the owning client that supplies rule additions succeeds,
producing the document with the additions merged into its rule set by name,
exactly when the additions are a subset of the acting client's own rule set at
call time; in particular additions containing a rule whose type is absent from
the acting client's rule set are always rejected. -/
theorem patch_rule_additions_iff_subset :
    ∀ (doc : PermDoc) (ownerSet adds : RuleSet) (gen : Nat → String),
      (patchPermission doc doc.clientID ownerSet (some adds) none gen =
          .ok { doc with ruleSet := mergeSet doc.ruleSet adds }
        ↔ isSubsetOf adds ownerSet = true)
      ∧ ((∃ p ∈ adds, ∀ q ∈ ownerSet, (q.2).type ≠ (p.2).type) →
          patchPermission doc doc.clientID ownerSet (some adds) none gen =
            .error .notSubset) := by
  intro doc ownerSet adds gen
  constructor
  · constructor
    · intro h
      by_contra hsub
      rw [Bool.not_eq_true] at hsub
      simp [patchPermission, hsub] at h
    · intro hsub
      simp [patchPermission, hsub, applyCodeNames]
  · intro ⟨p, hp, habs⟩
    have hsub := type_absent_not_subset adds ownerSet p hp habs
    simp [patchPermission, hsub]

theorem patch_rule_additions_iff_subset_witness :
    (patchPermission
        ⟨"perm-1", [("whatever", ⟨"io.cozy.files", Verbs [.GET], ["io.cozy.music"], none⟩)],
          [("paul", "code-p")], "client-1", 1⟩
        "client-1"
        [("rule0", ⟨"io.cozy.contacts", ALL, [], none⟩),
         ("rule1", ⟨"io.cozy.files", Verbs [.GET], [], none⟩)]
        (some [("otherperm", ⟨"io.cozy.contacts", ALL, [], none⟩)]) none
        (fun n => "c" ++ toString n) =
      .ok ⟨"perm-1",
        [("whatever", ⟨"io.cozy.files", Verbs [.GET], ["io.cozy.music"], none⟩),
         ("otherperm", ⟨"io.cozy.contacts", ALL, [], none⟩)],
        [("paul", "code-p")], "client-1", 1⟩)
    ∧ (patchPermission
        ⟨"perm-1", [("whatever", ⟨"io.cozy.files", Verbs [.GET], ["io.cozy.music"], none⟩)],
          [("paul", "code-p")], "client-1", 1⟩
        "client-1"
        [("rule0", ⟨"io.cozy.contacts", ALL, [], none⟩),
         ("rule1", ⟨"io.cozy.files", Verbs [.GET], [], none⟩)]
        (some [("otherperm", ⟨"io.cozy.token-cant-do-this", ALL, [], none⟩)]) none
        (fun n => "c" ++ toString n) =
      .error .notSubset) := by
  constructor
  · have h := (patch_rule_additions_iff_subset
      ⟨"perm-1", [("whatever", ⟨"io.cozy.files", Verbs [.GET], ["io.cozy.music"], none⟩)],
        [("paul", "code-p")], "client-1", 1⟩
      [("rule0", ⟨"io.cozy.contacts", ALL, [], none⟩),
       ("rule1", ⟨"io.cozy.files", Verbs [.GET], [], none⟩)]
      [("otherperm", ⟨"io.cozy.contacts", ALL, [], none⟩)]
      (fun n => "c" ++ toString n)).1.mpr (by decide)
    exact h
  · exact (patch_rule_additions_iff_subset _ _ _ _).2
      ⟨("otherperm", ⟨"io.cozy.token-cant-do-this", ALL, [], none⟩), by decide, by decide⟩

/-- C2: Patch and Revoke succeed only when the acting identity is the OAuth
client recorded as the document's owner; a code derived from the document
(whose resolved identity is the code string, not a client id) can never patch
or revoke it, while the creating client's own token can revoke it and can
patch it with any subset additions. -/
theorem patch_revoke_owner_only :
    ∀ (doc : PermDoc) (ownerSet : RuleSet) (adds : Option RuleSet)
      (codeReq : Option (List (String × String))) (gen : Nat → String)
      (acting name code : String),
      (∀ d, patchPermission doc acting ownerSet adds codeReq gen = .ok d →
        acting = doc.clientID)
      ∧ (revokePermission doc acting = .ok () → acting = doc.clientID)
      ∧ ((name, code) ∈ doc.codes → code ≠ doc.clientID →
          (∀ d, patchPermission doc (credentialOwner (.shareCode code))
              ownerSet adds codeReq gen ≠ .ok d)
          ∧ revokePermission doc (credentialOwner (.shareCode code)) =
              .error .notOwner)
      ∧ revokePermission doc (credentialOwner (.clientToken doc.clientID)) = .ok ()
      ∧ (∀ adds', isSubsetOf adds' ownerSet = true →
          ∃ d, patchPermission doc (credentialOwner (.clientToken doc.clientID))
              ownerSet (some adds') codeReq gen = .ok d) := by
  intro doc ownerSet adds codeReq gen acting name code
  refine ⟨?_, ?_, ?_, ?_, ?_⟩
  · intro d h
    by_contra hne
    simp [patchPermission, hne] at h
  · intro h
    by_contra hne
    simp [revokePermission, hne] at h
  · intro _ hne
    constructor
    · intro d h
      simp [patchPermission, credentialOwner, hne] at h
    · simp [revokePermission, credentialOwner, hne]
  · simp [revokePermission, credentialOwner]
  · intro adds' hsub
    refine ⟨applyCodeNames { doc with ruleSet := mergeSet doc.ruleSet adds' }
      codeReq gen, ?_⟩
    simp [patchPermission, credentialOwner, hsub]

theorem patch_revoke_owner_only_witness :
    (revokePermission ⟨"perm-1", [], [("jane", "jane-code")], "client-1", 1⟩
        (credentialOwner (.shareCode "jane-code")) = .error .notOwner)
    ∧ (revokePermission ⟨"perm-1", [], [("jane", "jane-code")], "client-1", 1⟩
        (credentialOwner (.clientToken "client-1")) = .ok ())
    ∧ ∃ d, patchPermission ⟨"perm-1", [], [("jane", "jane-code")], "client-1", 1⟩
        (credentialOwner (.clientToken "client-1"))
        [("rule0", ⟨"io.cozy.contacts", ALL, [], none⟩)]
        (some [("otherperm", ⟨"io.cozy.contacts", ALL, [], none⟩)]) none
        (fun n => "c" ++ toString n) = .ok d := by
  refine ⟨?_, ?_, ?_⟩
  · exact ((patch_revoke_owner_only
      ⟨"perm-1", [], [("jane", "jane-code")], "client-1", 1⟩
      [("rule0", ⟨"io.cozy.contacts", ALL, [], none⟩)] none none
      (fun n => "c" ++ toString n) "x" "jane" "jane-code").2.2.1
      (by decide) (by decide)).2
  · exact (patch_revoke_owner_only
      ⟨"perm-1", [], [("jane", "jane-code")], "client-1", 1⟩
      [("rule0", ⟨"io.cozy.contacts", ALL, [], none⟩)] none none
      (fun n => "c" ++ toString n) "x" "jane" "jane-code").2.2.2.1
  · exact (patch_revoke_owner_only
      ⟨"perm-1", [], [("jane", "jane-code")], "client-1", 1⟩
      [("rule0", ⟨"io.cozy.contacts", ALL, [], none⟩)] none none
      (fun n => "c" ++ toString n) "x" "jane" "jane-code").2.2.2.2
      [("otherperm", ⟨"io.cozy.contacts", ALL, [], none⟩)] (by decide)

end Cozy

namespace Cozy

theorem genCodes_names (req : List (String × String)) (gen : Nat → String) :
    (genCodes req gen).map Prod.fst = req.map Prod.fst := by
  rw [genCodes, List.map_map]
  rw [show ((Prod.fst ∘ fun p : Nat × String × String => (p.2.1, gen p.1)) =
      (Prod.fst ∘ Prod.snd : Nat × String × String → String)) from rfl]
  rw [← List.map_map, List.enum_map_snd]

theorem genCodes_of_names (req req' : List (String × String))
    (gen : Nat → String) (h : req.map Prod.fst = req'.map Prod.fst) :
    genCodes req gen = genCodes req' gen := by
  have key : ∀ (l : List (String × String)),
      genCodes l gen = (l.map Prod.fst).enum.map fun p => (p.2, gen p.1) := by
    intro l
    rw [genCodes, List.enum_map, List.map_map]
    rfl
  rw [key req, key req', h]

theorem genCodes_values (req : List (String × String)) (gen : Nat → String)
    (p : String × String) (hp : p ∈ genCodes req gen) :
    ∃ n, p.2 = gen n := by
  rw [genCodes, List.mem_map] at hp
  obtain ⟨q, _, hq⟩ := hp
  exact ⟨q.1, by rw [← hq]⟩

/-- C4: a patch by the owning client that supplies a codes mapping replaces
the document's codes wholesale: the result has exactly the names of the
request, each bound to a freshly generated non-empty code, the caller-supplied
values are ignored (a request with the same names and any other values yields
the very same document), and every previously existing name absent from the
request is dropped. -/
theorem patch_codes_wholesale :
    ∀ (doc : PermDoc) (ownerSet : RuleSet) (req req' : List (String × String))
      (gen : Nat → String),
      (∀ n, gen n ≠ "") →
      (∀ n, gen n ∉ doc.codes.map Prod.snd) →
      req.map Prod.fst = req'.map Prod.fst →
      ∃ d, patchPermission doc doc.clientID ownerSet none (some req) gen = .ok d
        ∧ patchPermission doc doc.clientID ownerSet none (some req') gen = .ok d
        ∧ d.codes.map Prod.fst = req.map Prod.fst
        ∧ (∀ p ∈ d.codes, p.2 ≠ "" ∧ p.2 ∉ doc.codes.map Prod.snd)
        ∧ (∀ n, n ∉ req.map Prod.fst → n ∉ d.codes.map Prod.fst)
        ∧ d.ruleSet = doc.ruleSet := by
  intro doc ownerSet req req' gen hne hfresh hnames
  refine ⟨{ doc with codes := genCodes req gen }, ?_, ?_, ?_, ?_, ?_, rfl⟩
  · simp [patchPermission, applyCodeNames]
  · rw [genCodes_of_names req req' gen hnames]
    simp [patchPermission, applyCodeNames]
  · exact genCodes_names req gen
  · intro p hp
    obtain ⟨n, hn⟩ := genCodes_values req gen p hp
    exact ⟨hn ▸ hne n, hn ▸ hfresh n⟩
  · intro n hn
    rw [genCodes_names req gen]
    exact hn

theorem patch_codes_wholesale_witness :
    ∃ d, patchPermission
        ⟨"perm-1", [("whatever", ⟨"io.cozy.files", Verbs [.GET], [], none⟩)],
          [("john", "old-john"), ("jane", "old-jane")], "client-1", 1⟩
        "client-1" [] none (some [("john", "set-token")])
        (fun _ => "newcode") = .ok d
      ∧ d.codes.map Prod.fst = ["john"]
      ∧ (∀ p ∈ d.codes, p.2 ≠ "" ∧ p.2 ∉ ["old-john", "old-jane"])
      ∧ "jane" ∉ d.codes.map Prod.fst := by
  obtain ⟨d, h1, _, h3, h4, h5, _⟩ := patch_codes_wholesale
    ⟨"perm-1", [("whatever", ⟨"io.cozy.files", Verbs [.GET], [], none⟩)],
      [("john", "old-john"), ("jane", "old-jane")], "client-1", 1⟩
    [] [("john", "set-token")] [("john", "other-value")]
    (fun _ => "newcode")
    (fun _ => by show ("newcode" : String) ≠ ""; decide)
    (fun _ => by show ("newcode" : String) ∉ (["old-john", "old-jane"] : List String); decide)
    (by decide)
  exact ⟨d, h1, h3, h4, h5 "jane" (by decide)⟩

/-- C5: a credential whose subject is not a registered client (for the
OAuth-Access audience) and a malformed credential are both answered by GetSelf
with HTTP 400 and the same generic invalid-token body, so the two cases are
indistinguishable to the caller. -/
theorem getself_invalid_credential_generic :
    ∀ (validity : Int) (registry : List String) (store : List PermDoc)
      (now : Int) (c : Claims),
      (c.audience = AccessTokenAudience → c.subject ∉ registry →
        getSelf validity registry store now (some c) = .err 400 invalidJWTBody)
      ∧ getSelf validity registry store now none = .err 400 invalidJWTBody
      ∧ (c.audience = AccessTokenAudience → c.subject ∉ registry →
          getSelf validity registry store now (some c) =
            getSelf validity registry store now none) := by
  intro validity registry store now c
  have key : c.audience = AccessTokenAudience → c.subject ∉ registry →
      getSelf validity registry store now (some c) = .err 400 invalidJWTBody := by
    intro haud hreg
    rw [getSelf, resolveToken, haud]
    simp [AccessTokenAudience, AppAudience, CLIAudience, hreg]
  exact ⟨key, rfl, fun haud hreg => by rw [key haud hreg]; rfl⟩

theorem getself_invalid_credential_generic_witness :
    getSelf 3600 ["client-1"] [] 1000
        (some ⟨AccessTokenAudience, "example.com", "revoked-client", 1000,
          "io.cozy.contacts io.cozy.files:GET"⟩) =
      .err 400 invalidJWTBody := by
  exact (getself_invalid_credential_generic 3600 ["client-1"] [] 1000
    ⟨AccessTokenAudience, "example.com", "revoked-client", 1000,
      "io.cozy.contacts io.cozy.files:GET"⟩).1 rfl (by decide)

theorem resolveToken_expired_only_access (validity : Int)
    (registry : List String) (store : List PermDoc) (now : Int) (c : Claims)
    (h : resolveToken validity registry store now c = .error .expiredToken) :
    c.audience = AccessTokenAudience := by
  by_contra hne
  rw [resolveToken] at h
  by_cases h1 : c.audience = AppAudience ∨ c.audience = CLIAudience
  · rw [if_pos h1] at h
    split at h <;> simp_all
  · rw [if_neg h1, if_neg hne] at h
    by_cases h3 : c.audience = ShareAudience
    · rw [if_pos h3] at h
      split at h <;> simp_all
    · rw [if_neg h3] at h
      simp at h

theorem getSelf_expired_iff (validity : Int) (registry : List String)
    (store : List PermDoc) (now : Int) (c : Claims) :
    getSelf validity registry store now (some c) = .err 400 expiredTokenBody ↔
      resolveToken validity registry store now c = .error .expiredToken := by
  constructor
  · intro h
    rw [getSelf] at h
    split at h
    · next heq =>
        rw [heq]
    · next e heq hne =>
        exfalso
        have : invalidJWTBody = expiredTokenBody := by
          injection h
        revert this
        decide
    · simp_all
  · intro h
    rw [getSelf]
    split <;> simp_all

/-- C6: an OAuth-Access token of a registered client whose issue time is older
than the validity window is rejected by GetSelf with 400 and the distinct
expired-token body — in particular one issued 30 days ago, for any window
shorter than 30 days — while an otherwise identical token issued now is
accepted with the parsed scope; and no token of another audience is ever
answered with the expired-token body. -/
theorem getself_staleness_window :
    ∀ (validity : Int) (registry : List String) (store : List PermDoc)
      (now : Int) (c c' : Claims),
      (c.audience = AccessTokenAudience → c.subject ∈ registry →
        ((now - c.issuedAt > validity →
            getSelf validity registry store now (some c) =
              .err 400 expiredTokenBody)
          ∧ (validity < 30 * 24 * 3600 → c.issuedAt = now - 30 * 24 * 3600 →
              getSelf validity registry store now (some c) =
                .err 400 expiredTokenBody)
          ∧ (0 ≤ validity → c.issuedAt = now →
              ∀ rs, parseScope c.scope = some rs →
                getSelf validity registry store now (some c) = .ok rs)))
      ∧ (c'.audience ≠ AccessTokenAudience →
          getSelf validity registry store now (some c') ≠
            .err 400 expiredTokenBody) := by
  intro validity registry store now c c'
  constructor
  · intro haud hreg
    have hstale : now - c.issuedAt > validity →
        getSelf validity registry store now (some c) =
          .err 400 expiredTokenBody := by
      intro hold
      rw [getSelf, resolveToken, haud]
      simp [AccessTokenAudience, AppAudience, CLIAudience, hreg, hold]
    refine ⟨hstale, ?_, ?_⟩
    · intro hwin hiat
      apply hstale
      rw [hiat]
      omega
    · intro hval hiat rs hrs
      rw [getSelf, resolveToken, haud]
      have hnow : ¬ now - c.issuedAt > validity := by
        rw [hiat]
        omega
      simp [AccessTokenAudience, AppAudience, CLIAudience, hreg, hnow, hrs]
  · intro haud h
    exact haud (resolveToken_expired_only_access validity registry store now c'
      ((getSelf_expired_iff validity registry store now c').mp h))

theorem getself_staleness_window_witness :
    (getSelf 604800 ["client-1"] [] 2592000
        (some ⟨AccessTokenAudience, "example.com", "client-1", 0,
          "io.cozy.contacts io.cozy.files:GET"⟩) =
      .err 400 expiredTokenBody)
    ∧ (getSelf 604800 ["client-1"] [] 2592000
        (some ⟨AccessTokenAudience, "example.com", "client-1", 2592000,
          "io.cozy.contacts io.cozy.files:GET"⟩) =
      .ok [("rule0", ⟨"io.cozy.contacts", ALL, [], none⟩),
           ("rule1", ⟨"io.cozy.files", Verbs [.GET], [], none⟩)]) := by
  constructor
  · exact ((getself_staleness_window 604800 ["client-1"] [] 2592000
      ⟨AccessTokenAudience, "example.com", "client-1", 0,
        "io.cozy.contacts io.cozy.files:GET"⟩
      ⟨AccessTokenAudience, "example.com", "client-1", 0,
        "io.cozy.contacts io.cozy.files:GET"⟩).1 rfl (by decide)).2.1
      (by decide) (by decide)
  · exact ((getself_staleness_window 604800 ["client-1"] [] 2592000
      ⟨AccessTokenAudience, "example.com", "client-1", 2592000,
        "io.cozy.contacts io.cozy.files:GET"⟩
      ⟨AccessTokenAudience, "example.com", "client-1", 2592000,
        "io.cozy.contacts io.cozy.files:GET"⟩).1 rfl (by decide)).2.2
      (by decide) rfl _ (by decide)

end Cozy

namespace Cozy

theorem mem_matchingRules (store : List PermDoc) (ty idv : String) (r : Rule) :
    r ∈ matchingRules store ty idv ↔
      (∃ d ∈ store, ∃ p ∈ d.ruleSet, p.2 = r) ∧ ruleMatchesRef r ty idv = true := by
  rw [matchingRules, List.mem_filter, List.mem_flatMap]
  constructor
  · intro ⟨⟨d, hd, hr⟩, hm⟩
    rw [List.mem_map] at hr
    obtain ⟨p, hp, hpr⟩ := hr
    exact ⟨⟨d, hd, p, hp, hpr⟩, hm⟩
  · intro ⟨⟨d, hd, p, hp, hpr⟩, hm⟩
    exact ⟨⟨d, hd, List.mem_map.mpr ⟨p, hp, hpr⟩⟩, hm⟩

theorem foldl_vsUnion_has (v : Verb) :
    ∀ (l : List Rule) (acc : VerbSet),
      (l.foldl (fun a r => vsUnion a r.verbs) acc).has v =
        (acc.has v || l.any fun r => r.verbs.has v)
  | [], acc => by simp
  | r :: t, acc => by
      rw [List.foldl_cons, foldl_vsUnion_has v t, vsUnion_has, List.any_cons,
        Bool.or_assoc]

theorem refVerbs_has (store : List PermDoc) (ty idv : String) (v : Verb) :
    (refVerbs store ty idv).has v = true ↔
      ∃ r ∈ matchingRules store ty idv, r.verbs.has v = true := by
  rw [refVerbs, foldl_vsUnion_has, vsEmpty_has, Bool.false_or, List.any_eq_true]

/-- C8: the existence resolver answers exactly the references covered by at
least one rule of some stored document — a triple (type, id, verbs) is in the
output iff the reference was asked, some stored rule covers it, and the verbs
are precisely the union of the verbs of every covering rule across all stored
documents — and an uncovered reference is omitted entirely, never returned
with empty verbs. -/
theorem check_existence_exact :
    ∀ (store : List PermDoc) (refs : List (String × String))
      (ty idv : String) (vs : VerbSet),
      ((ty, idv, vs) ∈ checkExistence store refs ↔
        ((ty, idv) ∈ refs
          ∧ (∃ d ∈ store, ∃ p ∈ d.ruleSet, ruleMatchesRef p.2 ty idv = true)
          ∧ ∀ v, vs.has v = true ↔
              ∃ d ∈ store, ∃ p ∈ d.ruleSet,
                ruleMatchesRef p.2 ty idv = true ∧ (p.2).verbs.has v = true))
      ∧ ((¬ ∃ d ∈ store, ∃ p ∈ d.ruleSet, ruleMatchesRef p.2 ty idv = true) →
          (ty, idv, vs) ∉ checkExistence store refs) := by
  intro store refs ty idv vs
  have hcov : (∃ r, r ∈ matchingRules store ty idv) ↔
      (∃ d ∈ store, ∃ p ∈ d.ruleSet, ruleMatchesRef p.2 ty idv = true) := by
    constructor
    · intro ⟨r, hr⟩
      obtain ⟨⟨d, hd, p, hp, hpr⟩, hm⟩ := (mem_matchingRules store ty idv r).mp hr
      exact ⟨d, hd, p, hp, hpr ▸ hm⟩
    · intro ⟨d, hd, p, hp, hm⟩
      exact ⟨p.2, (mem_matchingRules store ty idv p.2).mpr ⟨⟨d, hd, p, hp, rfl⟩, hm⟩⟩
  have hverb : ∀ v, ((refVerbs store ty idv).has v = true ↔
      ∃ d ∈ store, ∃ p ∈ d.ruleSet,
        ruleMatchesRef p.2 ty idv = true ∧ (p.2).verbs.has v = true) := by
    intro v
    rw [refVerbs_has]
    constructor
    · intro ⟨r, hr, hv⟩
      obtain ⟨⟨d, hd, p, hp, hpr⟩, hm⟩ := (mem_matchingRules store ty idv r).mp hr
      exact ⟨d, hd, p, hp, hpr ▸ hm, hpr ▸ hv⟩
    · intro ⟨d, hd, p, hp, hm, hv⟩
      exact ⟨p.2, (mem_matchingRules store ty idv p.2).mpr ⟨⟨d, hd, p, hp, rfl⟩, hm⟩, hv⟩
  have main : (ty, idv, vs) ∈ checkExistence store refs ↔
      ((ty, idv) ∈ refs
        ∧ (∃ d ∈ store, ∃ p ∈ d.ruleSet, ruleMatchesRef p.2 ty idv = true)
        ∧ ∀ v, vs.has v = true ↔
            ∃ d ∈ store, ∃ p ∈ d.ruleSet,
              ruleMatchesRef p.2 ty idv = true ∧ (p.2).verbs.has v = true) := by
    rw [checkExistence, List.mem_filterMap]
    constructor
    · intro ⟨r, hr, hfr⟩
      by_cases hemp : (matchingRules store r.1 r.2).isEmpty
      · rw [if_pos hemp] at hfr
        exact absurd hfr (by simp)
      · rw [if_neg hemp] at hfr
        have h1 : r.1 = ty := congrArg Prod.fst (Option.some.inj hfr)
        have hrest := congrArg Prod.snd (Option.some.inj hfr)
        have h2 : r.2 = idv := congrArg Prod.fst hrest
        have h3 : refVerbs store r.1 r.2 = vs := congrArg Prod.snd hrest
        subst h1
        subst h2
        have hne : ∃ x, x ∈ matchingRules store r.1 r.2 := by
          have h : matchingRules store r.1 r.2 ≠ [] :=
            fun hn => hemp (List.isEmpty_iff.mpr hn)
          exact List.exists_mem_of_ne_nil _ h
        refine ⟨by simpa using hr, hcov.mp hne, fun v => ?_⟩
        rw [← h3]
        exact hverb v
    · intro ⟨href, hc, hv⟩
      refine ⟨(ty, idv), href, ?_⟩
      have hne : ¬ (matchingRules store ty idv).isEmpty := by
        obtain ⟨r, hr⟩ := hcov.mpr hc
        intro hemp
        rw [List.isEmpty_iff] at hemp
        rw [hemp] at hr
        exact List.not_mem_nil r hr
      rw [if_neg hne]
      have : vs = refVerbs store ty idv := by
        apply verbset_ext
        intro v
        by_cases h : vs.has v = true
        · rw [h, Eq.comm]
          exact (hverb v).mpr ((hv v).mp h)
        · rw [Bool.not_eq_true] at h
          rw [h, Eq.comm, Bool.eq_false_iff]
          intro hx
          rw [← Bool.not_eq_true] at h
          exact h ((hv v).mpr ((hverb v).mp hx))
      rw [this]
  exact ⟨main, fun hnc hmem => hnc (main.mp hmem).2.1⟩

theorem check_existence_exact_witness :
    ("io.cozy.events", "ev1", Verbs [.PATCH, .DELETE]) ∈
      checkExistence
        [⟨"p1", [("r", ⟨"io.cozy.events", Verbs [.DELETE, .PATCH], ["ev1"], none⟩)],
            [("bob", "b")], "client-1", 1⟩,
         ⟨"p2", [("r", ⟨"io.cozy.events", Verbs [.GET], ["ev2"], none⟩)],
            [("bob", "b")], "client-1", 1⟩]
        [("io.cozy.events", "ev1"), ("io.cozy.events", "ev2"),
         ("io.cozy.events", "non-existing-id")]
    ∧ ("io.cozy.events", "non-existing-id", vsEmpty) ∉
      checkExistence
        [⟨"p1", [("r", ⟨"io.cozy.events", Verbs [.DELETE, .PATCH], ["ev1"], none⟩)],
            [("bob", "b")], "client-1", 1⟩,
         ⟨"p2", [("r", ⟨"io.cozy.events", Verbs [.GET], ["ev2"], none⟩)],
            [("bob", "b")], "client-1", 1⟩]
        [("io.cozy.events", "ev1"), ("io.cozy.events", "ev2"),
         ("io.cozy.events", "non-existing-id")] := by
  constructor
  · exact (check_existence_exact _ _ "io.cozy.events" "ev1"
      (Verbs [.PATCH, .DELETE])).1.mpr
      ⟨by decide, by decide, fun v => by cases v <;> decide⟩
  · exact (check_existence_exact _ _ "io.cozy.events" "non-existing-id"
      vsEmpty).2 (by decide)

end Cozy

namespace Cozy

theorem verbSubset_has (c p : VerbSet) (v : Verb)
    (hs : verbSubset c p = true) (hv : c.has v = true) : p.has v = true := by
  rw [verbSubset, List.all_eq_true] at hs
  have := hs v (by cases v <;> decide)
  rw [hv] at this
  simpa using this

/-- isSubsetOf is sound for the rule algebra: every request allowed by a
subset rule set is allowed by its parent — the §8 transfer property, which
requires rejecting an empty-values child rule under a value-restricted parent
rule (spec §3's strictly-broader invariant). -/
theorem isSubsetOf_allow (c p : RuleSet) (hs : isSubsetOf c p = true)
    (v : Verb) (ty : String) (val : Option String)
    (ha : allow c v ty val = true) : allow p v ty val = true := by
  rw [allow, List.any_eq_true] at ha
  obtain ⟨r, hr, hra⟩ := ha
  rw [isSubsetOf, List.all_eq_true] at hs
  have hcov := hs r hr
  rw [List.any_eq_true] at hcov
  obtain ⟨q, hq, hcv⟩ := hcov
  rw [allow, List.any_eq_true]
  refine ⟨q, hq, ?_⟩
  rw [ruleCoveredBy] at hcv
  simp only [Bool.and_eq_true, beq_iff_eq, Bool.or_eq_true, Bool.not_eq_true',
    List.all_eq_true] at hcv
  obtain ⟨⟨htyq, hvbq⟩, hvq⟩ := hcv
  cases val with
  | none =>
      simp only [ruleAllows, Bool.and_eq_true, beq_iff_eq] at hra ⊢
      obtain ⟨⟨hty, hvb⟩, hval⟩ := hra
      refine ⟨⟨htyq ▸ hty, verbSubset_has _ _ v hvbq hvb⟩, ?_⟩
      rcases hvq with hq1 | ⟨hq2, _⟩
      · exact hq1
      · rw [hval] at hq2
        cases hq2
  | some x =>
      simp only [ruleAllows, Bool.and_eq_true, beq_iff_eq, Bool.or_eq_true] at hra ⊢
      obtain ⟨⟨hty, hvb⟩, hval⟩ := hra
      refine ⟨⟨htyq ▸ hty, verbSubset_has _ _ v hvbq hvb⟩, ?_⟩
      rcases hvq with hq1 | ⟨hq2, hq3⟩
      · left
        exact hq1
      · rcases hval with hv1 | hv2
        · rw [hv1] at hq2
          cases hq2
        · right
          have hx : x ∈ (r.2).values := by simpa using hv2
          exact hq3 x hx

end Cozy
